import Mathlib

/-!
Verification of the NodeModal editing core (src/features/modals/NodeModal/index.tsx):
`normalizeNodeData`, the path-addressed mutation helper `applyEdit`, and the
field-synchronising save path of `handleSave` (called `syncFields` in the spec).

The document text is represented by its parsed value tree `JVal` (the result of
`JSON.parse`); `JSON.stringify` is modelled by `stringifyCompact`/`stringifyPretty`.
JavaScript dynamic property access and assignment (including `undefined`,
`null`-receiver TypeErrors, strict-mode assignment TypeErrors on primitives,
array holes serialising to `null`, and `Number()` string parsing) are embedded
explicitly below.
-/

set_option maxHeartbeats 1000000

namespace NodeModal

/-- Euclidean algorithm with explicit fuel, so that the kernel can evaluate
it; `m + 1` units of fuel always suffice. -/
def gcdFuel : Nat → Nat → Nat → Nat
  | 0, _, n => n
  | _ + 1, 0, n => n
  | fuel + 1, m + 1, n => gcdFuel fuel (n % (m + 1)) (m + 1)

/-- Greatest common divisor. -/
def natGcd (m n : Nat) : Nat := gcdFuel (m + 1) m n

/-- Rational numbers in lowest terms with positive denominator, used for the
finite JavaScript number values (every finite IEEE double is rational).
All construction goes through `mkJQ`, which normalises. -/
structure JQ where
  num : Int
  den : Nat
deriving DecidableEq

/-- Normalised rational `n / d` (callers pass `d ≠ 0`). -/
def mkJQ (n : Int) (d : Nat) : JQ :=
  if d = 0 then ⟨0, 1⟩
  else
    let g := natGcd n.natAbs d
    ⟨n / (g : Int), d / g⟩

/-- Integer as a rational. -/
def intJQ (n : Int) : JQ := ⟨n, 1⟩

/-- Product of rationals. -/
def mulJQ (a b : JQ) : JQ := mkJQ (a.num * b.num) (a.den * b.den)

/-- Quotient of rationals (division by zero yields zero; unreachable from
the number parser, whose divisors are powers of ten). -/
def divJQ (a b : JQ) : JQ :=
  if b.num = 0 then ⟨0, 1⟩
  else if 0 ≤ b.num then mkJQ (a.num * (b.den : Int)) (a.den * b.num.toNat)
  else mkJQ (-(a.num * (b.den : Int))) (a.den * (-b.num).toNat)

/-- Negation of a rational. -/
def negJQ (a : JQ) : JQ := ⟨-a.num, a.den⟩

/-- Natural power of a rational. -/
def powJQ (a : JQ) : Nat → JQ
  | 0 => intJQ 1
  | n + 1 => mulJQ a (powJQ a n)

/-- Integer power of ten. -/
def zpowTen : Int → JQ
  | Int.ofNat n => powJQ (intJQ 10) n
  | Int.negSucc n => divJQ (intJQ 1) (powJQ (intJQ 10) (n + 1))

/-- JavaScript number values: NaN, the two infinities, and finite values. -/
inductive JSNum where
  | nan
  | posInf
  | negInf
  | fin (q : JQ)
deriving DecidableEq

/-- Parsed JSON / JavaScript value trees. Object entries keep insertion order,
as JavaScript objects do for string keys. -/
inductive JVal where
  | null
  | bool (b : Bool)
  | num (n : JSNum)
  | str (s : String)
  | arr (elems : List JVal)
  | obj (entries : List (String × JVal))

/-- Path segments: a non-negative array index or an object key, as in
`NodeData["path"]`. -/
inductive Seg where
  | idx (n : Nat)
  | key (s : String)
deriving DecidableEq

/-- Errors the save path can throw: the explicit `new Error("Invalid path")`,
the JavaScript runtime TypeError (property access on `undefined`/`null`,
strict-mode assignment to a primitive's property), and RangeError
(invalid array length). -/
inductive JSErr where
  | invalidPath
  | typeError
  | rangeError
deriving DecidableEq

/-- Lookup of the first entry with the given key in an object's entry list. -/
def objLookup : List (String × JVal) → String → Option JVal
  | [], _ => none
  | (k, v) :: rest, k0 => if k = k0 then some v else objLookup rest k0

/-- Assignment `o[k] = v` on an object: replace the value in place when the key
exists, append a new entry otherwise (JavaScript keeps insertion order). -/
def objSet : List (String × JVal) → String → JVal → List (String × JVal)
  | [], k, v => [(k, v)]
  | (k1, v1) :: rest, k, v =>
    if k1 = k then (k, v) :: rest else (k1, v1) :: objSet rest k v

/-- Numeric value of a list of decimal digit characters. -/
def digitsToNat (cs : List Char) : Nat :=
  cs.foldl (fun a c => a * 10 + (c.toNat - 48)) 0

/-- Decides whether a string is the canonical decimal representation of a
natural number (the strings JavaScript treats as array indices), returning
that number. -/
def parseCanonicalNat (s : String) : Option Nat :=
  match s.toList with
  | [] => none
  | c :: cs =>
    if (c :: cs).all Char.isDigit then
      if c = '0' ∧ cs ≠ [] then none
      else some (digitsToNat (c :: cs))
    else none

/-- String a path segment is converted to when used as an object property
name (`parent[seg]` stringifies numeric segments). -/
def segToKey : Seg → String
  | Seg.idx n => toString n
  | Seg.key s => s

/-- Array index denoted by a segment, if any: an integer segment, or a string
segment that is a canonical numeral. -/
def segToArrIdx : Seg → Option Nat
  | Seg.idx n => some n
  | Seg.key k => parseCanonicalNat k

/-- Single-character string at position `n` of `s`, as JavaScript string
indexing yields (positions counted in code points here). -/
def strCharAt (s : String) (n : Nat) : Option JVal :=
  match s.toList.get? n with
  | some c => some (JVal.str (String.mk [c]))
  | none => none

/-- Property read `v[seg]` on a non-null, non-undefined receiver. Returns
`none` for `undefined`. Arrays and strings expose `length` and canonical
numeric string indices; other primitives have no own properties. -/
def jsGetNN (v : JVal) (s : Seg) : Option JVal :=
  match v, s with
  | JVal.obj es, s => objLookup es (segToKey s)
  | JVal.arr xs, Seg.idx n => xs.get? n
  | JVal.arr xs, Seg.key k =>
    if k = "length" then some (JVal.num (JSNum.fin (intJQ (Int.ofNat xs.length))))
    else (parseCanonicalNat k).bind xs.get?
  | JVal.str t, Seg.idx n => strCharAt t n
  | JVal.str t, Seg.key k =>
    if k = "length" then some (JVal.num (JSNum.fin (intJQ (Int.ofNat t.length))))
    else (parseCanonicalNat k).bind (strCharAt t)
  | _, _ => none

/-- Chained property reads `x = x[s1]; x = x[s2]; ...` as the walk loops in
`applyEdit` and `handleSave` perform them: reading a property of `undefined`
or `null` throws a TypeError; otherwise the next value (possibly `undefined`)
is produced. -/
def walkSegs : Option JVal → List Seg → Except JSErr (Option JVal)
  | cur, [] => Except.ok cur
  | none, _ :: _ => Except.error JSErr.typeError
  | some JVal.null, _ :: _ => Except.error JSErr.typeError
  | some v, s :: rest => walkSegs (jsGetNN v s) rest

/-- Membership access used for structural path resolution in the statements
below: object keys address object entries and integer indices address array
elements; nothing else resolves. This is the type-correct subset of `jsGetNN`
(paths produced by the graph store have this shape). -/
def memberGet : JVal → Seg → Option JVal
  | JVal.obj es, Seg.key k => objLookup es k
  | JVal.arr xs, Seg.idx n => xs.get? n
  | _, _ => none

/-- Structural resolution of a path to the value it addresses. -/
def getStruct : JVal → List Seg → Option JVal
  | v, [] => some v
  | v, s :: rest => (memberGet v s).bind (fun c => getStruct c rest)

/-- Assignment `xs[n] = v` on an array: in-range indices are replaced; a
write past the end creates holes, which `JSON.stringify` serialises as
`null`, so the model pads with `null`. -/
def arrSetIdx (xs : List JVal) (n : Nat) (v : JVal) : List JVal :=
  if n < xs.length then xs.set n v
  else xs ++ List.replicate (n - xs.length) JVal.null ++ [v]

/-- Rebuilds the tree with the subtree at the given (member-addressing) path
replaced. This is what the in-place mutation of an aliased subobject amounts
to once the whole tree is re-serialised: the walked chain consists of object
entries and array elements, which alias positions in the root tree. Paths
that do not address a member leave the tree unchanged (such calls only arise
here after a successful walk, so the fallback cases are inert). -/
def setDeep : JVal → List Seg → JVal → JVal
  | _, [], sub => sub
  | cur, s :: rest, sub =>
    match cur with
    | JVal.obj es =>
      match objLookup es (segToKey s) with
      | some c => JVal.obj (objSet es (segToKey s) (setDeep c rest sub))
      | none => JVal.obj es
    | JVal.arr xs =>
      match segToArrIdx s with
      | some n =>
        match xs.get? n with
        | some c => JVal.arr (xs.set n (setDeep c rest sub))
        | none => JVal.arr xs
      | none => JVal.arr xs
    | other => other

/-- Characters `Number()` trims from both ends (ECMAScript StrWhiteSpace). -/
def isJsWs (c : Char) : Bool :=
  c == ' ' || c == '\t' || c == '\n' || c == '\r' || c.toNat == 11 || c.toNat == 12 ||
  c.toNat == 160 || c.toNat == 0x1680 || (0x2000 ≤ c.toNat && c.toNat ≤ 0x200a) ||
  c.toNat == 0x2028 || c.toNat == 0x2029 || c.toNat == 0x202f || c.toNat == 0x205f ||
  c.toNat == 0x3000 || c.toNat == 0xfeff

/-- Trim JavaScript whitespace from both ends. -/
def trimJsWs (cs : List Char) : List Char :=
  ((cs.dropWhile isJsWs).reverse.dropWhile isJsWs).reverse

/-- Powers of ten as rationals. -/
def pow10 (n : Nat) : JQ := powJQ (intJQ 10) n

/-- Application of a decimal exponent. -/
def applyExp (q : JQ) (e : Int) : JQ := mulJQ q (zpowTen e)

/-- Parse an optional exponent suffix; the whole remainder must be consumed. -/
def parseExpTail (cs : List Char) : Option Int :=
  match cs with
  | [] => some 0
  | c :: rest =>
    if c = 'e' ∨ c = 'E' then
      match rest with
      | '+' :: ds => if ds ≠ [] ∧ ds.all Char.isDigit then some (Int.ofNat (digitsToNat ds)) else none
      | '-' :: ds => if ds ≠ [] ∧ ds.all Char.isDigit then some (-(Int.ofNat (digitsToNat ds))) else none
      | ds => if ds ≠ [] ∧ ds.all Char.isDigit then some (Int.ofNat (digitsToNat ds)) else none
    else none

/-- Parse an unsigned decimal literal (digits, optional fraction, optional
exponent), as in ECMAScript StrUnsignedDecimalLiteral. -/
def parseDec (cs : List Char) : Option JQ :=
  let ip := cs.takeWhile Char.isDigit
  let r1 := cs.dropWhile Char.isDigit
  match r1 with
  | '.' :: r2 =>
    let fp := r2.takeWhile Char.isDigit
    let r3 := r2.dropWhile Char.isDigit
    if ip = [] ∧ fp = [] then none
    else (parseExpTail r3).map (fun e =>
      applyExp (divJQ (intJQ (Int.ofNat (digitsToNat (ip ++ fp)))) (pow10 fp.length)) e)
  | _ =>
    if ip = [] then none
    else (parseExpTail r1).map (fun e => applyExp (intJQ (Int.ofNat (digitsToNat ip))) e)

/-- Hexadecimal digit test. -/
def isHexDigit (c : Char) : Bool :=
  c.isDigit || ('a' ≤ c && c ≤ 'f') || ('A' ≤ c && c ≤ 'F')

/-- Value of a hexadecimal digit. -/
def hexDigitVal (c : Char) : Nat :=
  if c.isDigit then c.toNat - 48
  else if 'a' ≤ c ∧ c ≤ 'f' then c.toNat - 87
  else c.toNat - 55

/-- Value of a digit string in the given radix. -/
def radixVal (r : Nat) (cs : List Char) : Nat :=
  cs.foldl (fun a c => a * r + hexDigitVal c) 0

/-- Parse an unsigned decimal literal or the word Infinity; anything else is NaN. -/
def decOrInfinity (cs : List Char) : JSNum :=
  if cs = "Infinity".toList then JSNum.posInf
  else
    match parseDec cs with
    | some q => JSNum.fin q
    | none => JSNum.nan

/-- The core of `Number(string)` after whitespace trimming: empty means 0,
an optional sign applies to decimal literals and Infinity only, and the
0x/0o/0b radix forms take no sign. -/
def jsToNumberCore (cs : List Char) : JSNum :=
  match cs with
  | [] => JSNum.fin (intJQ 0)
  | '+' :: rest => decOrInfinity rest
  | '-' :: rest =>
    match decOrInfinity rest with
    | JSNum.posInf => JSNum.negInf
    | JSNum.fin q => JSNum.fin (negJQ q)
    | _ => JSNum.nan
  | '0' :: 'x' :: rest =>
    if rest ≠ [] ∧ rest.all isHexDigit then JSNum.fin (intJQ (Int.ofNat (radixVal 16 rest))) else JSNum.nan
  | '0' :: 'X' :: rest =>
    if rest ≠ [] ∧ rest.all isHexDigit then JSNum.fin (intJQ (Int.ofNat (radixVal 16 rest))) else JSNum.nan
  | '0' :: 'o' :: rest =>
    if rest ≠ [] ∧ rest.all (fun c => '0' ≤ c && c ≤ '7') then JSNum.fin (intJQ (Int.ofNat (radixVal 8 rest))) else JSNum.nan
  | '0' :: 'O' :: rest =>
    if rest ≠ [] ∧ rest.all (fun c => '0' ≤ c && c ≤ '7') then JSNum.fin (intJQ (Int.ofNat (radixVal 8 rest))) else JSNum.nan
  | '0' :: 'b' :: rest =>
    if rest ≠ [] ∧ rest.all (fun c => c == '0' || c == '1') then JSNum.fin (intJQ (Int.ofNat (radixVal 2 rest))) else JSNum.nan
  | '0' :: 'B' :: rest =>
    if rest ≠ [] ∧ rest.all (fun c => c == '0' || c == '1') then JSNum.fin (intJQ (Int.ofNat (radixVal 2 rest))) else JSNum.nan
  | _ => decOrInfinity cs

/-- The JavaScript `Number(string)` conversion used by the save path's
numeric coercion. -/
def jsToNumber (s : String) : JSNum :=
  jsToNumberCore (trimJsWs s.toList)

/-- ToNumber on a JavaScript value, used by the array `length` setter. For
single-element arrays the conversion goes through the element's string form;
nested containers are approximated as NaN (they do not arise from the save
path, whose values are coerced primitives). -/
def toNumberJS : JVal → JSNum
  | JVal.null => JSNum.fin (intJQ 0)
  | JVal.bool true => JSNum.fin (intJQ 1)
  | JVal.bool false => JSNum.fin (intJQ 0)
  | JVal.num n => n
  | JVal.str s => jsToNumber s
  | JVal.obj _ => JSNum.nan
  | JVal.arr [] => JSNum.fin (intJQ 0)
  | JVal.arr [JVal.null] => JSNum.fin (intJQ 0)
  | JVal.arr [JVal.num n] => n
  | JVal.arr [JVal.str s] => jsToNumber s
  | JVal.arr _ => JSNum.nan

/-- Assignment `arr.length = v`: a non-negative integral number (after
ToNumber) resizes the array, holes created by growth serialising as `null`;
anything else throws a RangeError. -/
def arrSetLength (xs : List JVal) (v : JVal) : Except JSErr (List JVal) :=
  match toNumberJS v with
  | JSNum.fin q =>
    if q.den = 1 ∧ 0 ≤ q.num then
      let n := q.num.toNat
      Except.ok (if n ≤ xs.length then xs.take n else xs ++ List.replicate (n - xs.length) JVal.null)
    else Except.error JSErr.rangeError
  | _ => Except.error JSErr.rangeError

/-- Assignment `parent[seg] = v`. Objects accept any key; arrays accept
indices (with hole padding), the `length` property, and silently ignore
other string keys as far as the serialised tree is concerned (expando
properties are invisible to `JSON.stringify`). Assigning to a property of
`null` or of a primitive throws a TypeError (the module is strict-mode
code). -/
def jsSet (parent : JVal) (s : Seg) (v : JVal) : Except JSErr JVal :=
  match parent with
  | JVal.obj es => Except.ok (JVal.obj (objSet es (segToKey s) v))
  | JVal.arr xs =>
    match segToArrIdx s with
    | some n => Except.ok (JVal.arr (arrSetIdx xs n v))
    | none =>
      if segToKey s = "length" then (arrSetLength xs v).map JVal.arr
      else Except.ok (JVal.arr xs)
  | _ => Except.error JSErr.typeError

/-- The `applyEdit` helper: an empty path replaces the whole document by the
new value; otherwise walk every segment but the last from the parsed root,
throw `Invalid path` when the resulting parent is undefined, and perform the
assignment `parent[last] = newValue`, returning the re-serialised tree. -/
def applyEdit (root : JVal) (path : List Seg) (v : JVal) : Except JSErr JVal :=
  if path.isEmpty then Except.ok v
  else
    match walkSegs (some root) path.dropLast with
    | Except.error e => Except.error e
    | Except.ok none => Except.error JSErr.invalidPath
    | Except.ok (some parent) =>
      match jsSet parent (path.getLastD (Seg.key "")) v with
      | Except.error e => Except.error e
      | Except.ok newParent => Except.ok (setDeep root path.dropLast newParent)

/-- One editable (key, value, type) row of the edit form, the `fields` state
of the modal. A `none` key is the bare-scalar row; the key text can also be
edited to the empty string, which JavaScript treats as falsy. -/
structure Field where
  key : Option String
  value : String
  type : String

/-- ASCII lower-casing of one character, as `toLowerCase` acts on the
letters relevant here. -/
def charToLower (c : Char) : Char :=
  if 'A' ≤ c ∧ c ≤ 'Z' then Char.ofNat (c.toNat + 32) else c

/-- ASCII lower-casing of a string (the `f.value.toLowerCase()` call). -/
def asciiToLower (s : String) : String :=
  String.mk (s.toList.map charToLower)

/-- Per-field text-to-value coercion of the save path: `number` parses via
`Number()` and keeps the raw text when the result is NaN, `boolean` matches
"true"/"false" after lower-casing and keeps the raw text otherwise, `null`
yields null regardless of the text, and every other type keeps the text.
A failed coercion therefore never throws. -/
def coerceField (f : Field) : JVal :=
  if f.type = "number" then
    match jsToNumber f.value with
    | JSNum.nan => JVal.str f.value
    | n => JVal.num n
  else if f.type = "boolean" then
    if asciiToLower f.value = "true" then JVal.bool true
    else if asciiToLower f.value = "false" then JVal.bool false
    else JVal.str f.value
  else if f.type = "null" then JVal.null
  else JVal.str f.value

/-- One step of building `updatedObj`: `if (!f.key) return;` skips falsy keys
(absent or empty), otherwise `updatedObj[f.key] = coerced value`. -/
def updStep (acc : List (String × JVal)) (f : Field) : List (String × JVal) :=
  match f.key with
  | some k => if k = "" then acc else objSet acc k (coerceField f)
  | none => acc

/-- The `updatedObj` mapping built from the fields: rows whose key is falsy
(absent or the empty string) are skipped, later duplicates overwrite in
place. -/
def buildUpdatedObj (fields : List Field) : List (String × JVal) :=
  fields.foldl updStep []

/-- The check `fields.some(f => f.key === k)` guarding the deletion pass. -/
def fieldsHasKey (fields : List Field) (k : String) : Bool :=
  fields.any (fun f => f.key == some k)

/-- The save path's primitive test `val === null || typeof val !== "object"`:
true for everything except objects and arrays. -/
def isPrim : JVal → Bool
  | JVal.obj _ => false
  | JVal.arr _ => false
  | _ => true

/-- Merge pass on an object target: primitive-valued keys matched by no field
are deleted, then every key of the coerced mapping is set in order. -/
def mergeObjTarget (es : List (String × JVal)) (fields : List Field) : List (String × JVal) :=
  (buildUpdatedObj fields).foldl (fun acc kv => objSet acc kv.1 kv.2)
    (es.filter (fun kv => !isPrim kv.2 || fieldsHasKey fields kv.1))

/-- Assignment `target[k] = v` for a string key on an array target: canonical
numerals write elements, `length` resizes (possibly with a RangeError), and
any other key becomes an expando property invisible to serialisation. -/
def arrSetKey (xs : List JVal) (k : String) (v : JVal) : Except JSErr (List JVal) :=
  match parseCanonicalNat k with
  | some n => Except.ok (arrSetIdx xs n v)
  | none =>
    if k = "length" then arrSetLength xs v
    else Except.ok xs

/-- Merge pass applied to an array target (arrays pass the
`typeof target === "object"` test): `Object.keys` enumerates the indices, so
primitive elements matched by no field are deleted, leaving holes that
serialise as `null`; then each key of the coerced mapping is assigned onto
the array. -/
def mergeArrTarget (xs : List JVal) (fields : List Field) : Except JSErr (List JVal) :=
  (buildUpdatedObj fields).foldlM (fun acc kv => arrSetKey acc kv.1 kv.2)
    (xs.enum.map (fun iv =>
      if isPrim iv.2 && !fieldsHasKey fields (toString iv.1) then JVal.null else iv.2))

/-- The keyed-rows save path of `handleSave` (the spec's `syncFields`): walk
the full path from the parsed root; a target that is not an object in the
`typeof` sense (undefined, null, or a scalar) is replaced wholesale through
`applyEdit` with the coerced mapping; an object or array target is merged in
place and the updated tree returned. -/
def syncFields (root : JVal) (path : List Seg) (fields : List Field) : Except JSErr JVal :=
  match walkSegs (some root) path with
  | Except.error e => Except.error e
  | Except.ok none => applyEdit root path (JVal.obj (buildUpdatedObj fields))
  | Except.ok (some t) =>
    match t with
    | JVal.obj es => Except.ok (setDeep root path (JVal.obj (mergeObjTarget es fields)))
    | JVal.arr xs =>
      match mergeArrTarget xs fields with
      | Except.ok xs2 => Except.ok (setDeep root path (JVal.arr xs2))
      | Except.error e => Except.error e
    | _ => applyEdit root path (JVal.obj (buildUpdatedObj fields))

/-- Opening brace as a string. -/
def obrace : String := "\x7b"

/-- Closing brace as a string. -/
def cbrace : String := "\x7d"

/-- Fraction digits of `num / den` in decimal, with enough fuel for every
IEEE double (whose decimal expansion terminates); non-terminating rationals,
which do not arise as JavaScript numbers, are truncated. -/
def decDigits (num den : Nat) : Nat → String
  | 0 => ""
  | fuel + 1 =>
    if num = 0 then ""
    else
      String.mk [Char.ofNat (48 + num * 10 / den)] ++ decDigits (num * 10 % den) den fuel

/-- Decimal rendering of a rational, as JavaScript prints finite numbers
(integer part, then a terminating fraction when present; the exponent forms
used beyond 1e21 are not modelled, nothing here observes them). -/
def ratToString (q : JQ) : String :=
  if q.den = 1 then toString q.num
  else
    (if q.num < 0 then "-" else "") ++ toString (q.num.natAbs / q.den) ++ "." ++
      decDigits (q.num.natAbs % q.den) q.den 1200

/-- Rendering of a number by `JSON.stringify`: NaN and the infinities
serialise as null. -/
def numToString : JSNum → String
  | JSNum.nan => "null"
  | JSNum.posInf => "null"
  | JSNum.negInf => "null"
  | JSNum.fin q => ratToString q

/-- Lower-case hexadecimal digit. -/
def hexDigitChar (n : Nat) : Char :=
  if n < 10 then Char.ofNat (48 + n) else Char.ofNat (87 + n)

/-- Four-digit hexadecimal rendering for control-character escapes. -/
def hex4 (n : Nat) : String :=
  String.mk [hexDigitChar (n / 4096 % 16), hexDigitChar (n / 256 % 16),
    hexDigitChar (n / 16 % 16), hexDigitChar (n % 16)]

/-- JSON escaping of one character. -/
def escChar (c : Char) : String :=
  if c = '"' then "\\\""
  else if c = '\\' then "\\\\"
  else if c = '\n' then "\\n"
  else if c = '\r' then "\\r"
  else if c = '\t' then "\\t"
  else if c.toNat = 8 then "\\b"
  else if c.toNat = 12 then "\\f"
  else if c.toNat < 32 then "\\u" ++ hex4 c.toNat
  else String.mk [c]

/-- JSON string literal for `s`. -/
def escapeJs (s : String) : String :=
  "\"" ++ String.join (s.toList.map escChar) ++ "\""

/-- Join with a separator. -/
def joinSep (sep : String) : List String → String
  | [] => ""
  | [x] => x
  | x :: xs => x ++ sep ++ joinSep sep xs

mutual

/-- Compact `JSON.stringify(v)` (no indent argument). -/
def stringifyCompact : JVal → String
  | JVal.null => "null"
  | JVal.bool true => "true"
  | JVal.bool false => "false"
  | JVal.num n => numToString n
  | JVal.str s => escapeJs s
  | JVal.arr xs => "[" ++ joinSep "," (stringifyListC xs) ++ "]"
  | JVal.obj es => obrace ++ joinSep "," (stringifyEntriesC es) ++ cbrace

/-- Compact rendering of array elements. -/
def stringifyListC : List JVal → List String
  | [] => []
  | x :: xs => stringifyCompact x :: stringifyListC xs

/-- Compact rendering of object entries. -/
def stringifyEntriesC : List (String × JVal) → List String
  | [] => []
  | (k, v) :: es => (escapeJs k ++ ":" ++ stringifyCompact v) :: stringifyEntriesC es

end

/-- Spaces for indentation. -/
def spaces (n : Nat) : String := String.mk (List.replicate n ' ')

mutual

/-- Pretty `JSON.stringify(v, null, 2)` at the given current indent. -/
def stringifyPretty (ind : Nat) : JVal → String
  | JVal.arr [] => "[]"
  | JVal.arr (x :: xs) =>
    "[\n" ++ joinSep ",\n" (stringifyListP (ind + 2) (x :: xs)) ++ "\n" ++ spaces ind ++ "]"
  | JVal.obj [] => obrace ++ cbrace
  | JVal.obj (e :: es) =>
    obrace ++ "\n" ++ joinSep ",\n" (stringifyEntriesP (ind + 2) (e :: es)) ++ "\n" ++
      spaces ind ++ cbrace
  | v => stringifyCompact v

/-- Pretty rendering of array elements. -/
def stringifyListP (ind : Nat) : List JVal → List String
  | [] => []
  | x :: xs => (spaces ind ++ stringifyPretty ind x) :: stringifyListP ind xs

/-- Pretty rendering of object entries. -/
def stringifyEntriesP (ind : Nat) : List (String × JVal) → List String
  | [] => []
  | (k, v) :: es =>
    (spaces ind ++ escapeJs k ++ ": " ++ stringifyPretty ind v) :: stringifyEntriesP ind es

end

mutual

/-- The template-literal fallback text of a value (JavaScript `String(v)`). -/
def jsToStringV : JVal → String
  | JVal.null => "null"
  | JVal.bool true => "true"
  | JVal.bool false => "false"
  | JVal.num JSNum.nan => "NaN"
  | JVal.num JSNum.posInf => "Infinity"
  | JVal.num JSNum.negInf => "-Infinity"
  | JVal.num (JSNum.fin q) => ratToString q
  | JVal.str s => s
  | JVal.obj _ => "[object Object]"
  | JVal.arr xs => joinSep "," (arrElemStrs xs)

/-- Elements of an array under `String(...)`: null (and holes) print empty. -/
def arrElemStrs : List JVal → List String
  | [] => []
  | JVal.null :: xs => "" :: arrElemStrs xs
  | x :: xs => jsToStringV x :: arrElemStrs xs

end

/-- One displayable row of the selected node (`NodeData["text"]`). -/
structure Row where
  key : Option String
  value : JVal
  type : String

/-- Truthiness of the row key (`null` and the empty string are falsy). -/
def keyTruthy : Option String → Bool
  | none => false
  | some s => s != ""

/-- The `JSON.stringify` call of the scalar branch with its failure channel
explicit. `JSON.stringify` throws only on circular structures or BigInt
values, neither of which is representable in a parsed JSON tree, so the
error case never fires on this domain; the catch clause is kept explicit in
`normalizeNodeData` to mirror the source. -/
def jsonStringifyE (v : JVal) : Except String String :=
  Except.ok (stringifyCompact v)

/-- One step of building the display object: rows of type array/object and
rows with a falsy key are excluded, every other row writes its key. -/
def dispStep (acc : List (String × JVal)) (r : Row) : List (String × JVal) :=
  if r.type != "array" && r.type != "object" then
    match r.key with
    | some k => if k != "" then objSet acc k r.value else acc
    | none => acc
  else acc

/-- The object the display branch of `normalizeNodeData` builds. -/
def buildDisplayObj (rows : List Row) : List (String × JVal) :=
  rows.foldl dispStep []

/-- The `normalizeNodeData` renderer: empty row list prints the empty object
literal; a single row with falsy key prints the value as standalone JSON
(falling back to its template-literal text if serialisation fails);
otherwise the filtered key/value object is printed with 2-space indent. -/
def normalizeNodeData (rows : List Row) : String :=
  if rows.length = 0 then obrace ++ cbrace
  else
    match rows with
    | [r] =>
      if keyTruthy r.key then stringifyPretty 0 (JVal.obj (buildDisplayObj rows))
      else
        match jsonStringifyE r.value with
        | Except.ok s => s
        | Except.error _ => jsToStringV r.value
    | _ => stringifyPretty 0 (JVal.obj (buildDisplayObj rows))

/-! Helper lemmas about the object entry-list operations. -/

theorem objSet_lookup_self (l : List (String × JVal)) (k : String) (v : JVal) :
    objLookup (objSet l k v) k = some v := by
  induction l with
  | nil => simp [objSet, objLookup]
  | cons hd t ih =>
    obtain ⟨k1, v1⟩ := hd
    by_cases hk : k1 = k
    · simp [objSet, hk, objLookup]
    · simp [objSet, hk, objLookup, ih]

theorem objSet_lookup_ne (l : List (String × JVal)) (k : String) (v : JVal) (k2 : String)
    (h : k ≠ k2) : objLookup (objSet l k v) k2 = objLookup l k2 := by
  induction l with
  | nil => simp [objSet, objLookup, h]
  | cons hd t ih =>
    obtain ⟨k1, v1⟩ := hd
    by_cases hk : k1 = k
    · subst hk
      simp [objSet, objLookup, h]
    · simp [objSet, hk, objLookup, ih]

theorem objSet_keys_mem (l : List (String × JVal)) (k : String) (v : JVal)
    (h : k ∈ l.map Prod.fst) : (objSet l k v).map Prod.fst = l.map Prod.fst := by
  induction l with
  | nil => simp at h
  | cons hd t ih =>
    obtain ⟨k1, v1⟩ := hd
    by_cases hk : k1 = k
    · simp [objSet, hk]
    · have hm : k ∈ t.map Prod.fst := by
        simp at h
        rcases h with h | h
        · exact absurd h.symm hk
        · simpa using h
      simp [objSet, hk, ih hm]

theorem objSet_keys_not_mem (l : List (String × JVal)) (k : String) (v : JVal)
    (h : k ∉ l.map Prod.fst) : (objSet l k v).map Prod.fst = l.map Prod.fst ++ [k] := by
  induction l with
  | nil => simp [objSet]
  | cons hd t ih =>
    obtain ⟨k1, v1⟩ := hd
    have hk : k1 ≠ k := by
      intro he
      exact h (by simp [he])
    have hm : k ∉ t.map Prod.fst := by
      intro hmem
      exact h (by simp [hmem])
    simp [objSet, hk, ih hm]

theorem objSet_mem (l : List (String × JVal)) (k : String) (v : JVal)
    (kv : String × JVal) (h : kv ∈ objSet l k v) : kv.1 = k ∨ kv ∈ l := by
  induction l with
  | nil =>
    simp [objSet] at h
    subst h
    simp
  | cons hd t ih =>
    obtain ⟨k1, v1⟩ := hd
    by_cases hk : k1 = k
    · simp [objSet, hk] at h
      rcases h with h | h
      · subst h
        simp
      · right
        simp [h]
    · simp [objSet, hk] at h
      rcases h with h | h
      · right
        simp [h]
      · rcases ih h with h1 | h1
        · left
          exact h1
        · right
          simp [h1]

theorem objSet_keys_nodup (l : List (String × JVal)) (k : String) (v : JVal)
    (h : (l.map Prod.fst).Nodup) : ((objSet l k v).map Prod.fst).Nodup := by
  by_cases hk : k ∈ l.map Prod.fst
  · rw [objSet_keys_mem l k v hk]
    exact h
  · rw [objSet_keys_not_mem l k v hk]
    simp [List.nodup_append, h, hk]

theorem lookup_none_of_not_mem_keys (es : List (String × JVal)) (k : String)
    (h : k ∉ es.map Prod.fst) : objLookup es k = none := by
  induction es with
  | nil => simp [objLookup]
  | cons hd t ih =>
    obtain ⟨k1, v1⟩ := hd
    have h1 : k1 ≠ k := by
      intro he
      exact h (by simp [he])
    have h2 : k ∉ t.map Prod.fst := by
      intro hm
      exact h (by simp [hm])
    simp [objLookup, h1, ih h2]

theorem key_mem_of_pair_mem (es : List (String × JVal)) (k : String) (v : JVal)
    (h : (k, v) ∈ es) : k ∈ es.map Prod.fst :=
  List.mem_map.mpr ⟨(k, v), h, rfl⟩

theorem lookup_eq_of_mem_nodup (es : List (String × JVal)) (k : String) (v : JVal)
    (hnd : (es.map Prod.fst).Nodup) (h : (k, v) ∈ es) : objLookup es k = some v := by
  induction es with
  | nil => simp at h
  | cons hd t ih =>
    obtain ⟨k1, v1⟩ := hd
    rw [List.map_cons, List.nodup_cons] at hnd
    rcases List.mem_cons.mp h with h1 | h1
    · rw [Prod.mk.injEq] at h1
      simp [objLookup, h1.1.symm, h1.2]
    · have hk1 : k1 ≠ k := by
        intro he
        subst he
        exact hnd.1 (key_mem_of_pair_mem t k1 v h1)
      simp [objLookup, hk1, ih hnd.2 h1]

theorem lookup_filter_of_mem_true (es : List (String × JVal)) (p : String × JVal → Bool)
    (k : String) (v : JVal) (hnd : (es.map Prod.fst).Nodup) (hmem : (k, v) ∈ es)
    (hp : p (k, v) = true) : objLookup (es.filter p) k = some v := by
  induction es with
  | nil => simp at hmem
  | cons hd t ih =>
    obtain ⟨k1, v1⟩ := hd
    rw [List.map_cons, List.nodup_cons] at hnd
    rcases List.mem_cons.mp hmem with h1 | h1
    · rw [Prod.mk.injEq] at h1
      obtain ⟨he1, he2⟩ := h1
      subst he1
      subst he2
      simp [List.filter_cons, hp, objLookup]
    · have hk1 : k1 ≠ k := by
        intro he
        subst he
        exact hnd.1 (key_mem_of_pair_mem t k1 v h1)
      by_cases hph : p (k1, v1) = true
      · simp [List.filter_cons, hph, objLookup, hk1, ih hnd.2 h1]
      · simp only [Bool.not_eq_true] at hph
        simp [List.filter_cons, hph, ih hnd.2 h1]

theorem lookup_filter_of_mem_false (es : List (String × JVal)) (p : String × JVal → Bool)
    (k : String) (v : JVal) (hnd : (es.map Prod.fst).Nodup) (hmem : (k, v) ∈ es)
    (hp : p (k, v) = false) : objLookup (es.filter p) k = none := by
  induction es with
  | nil => simp at hmem
  | cons hd t ih =>
    obtain ⟨k1, v1⟩ := hd
    rw [List.map_cons, List.nodup_cons] at hnd
    rcases List.mem_cons.mp hmem with h1 | h1
    · rw [Prod.mk.injEq] at h1
      obtain ⟨he1, he2⟩ := h1
      subst he1
      subst he2
      have hred : List.filter p ((k, v) :: t) = List.filter p t := by
        simp [List.filter_cons, hp]
      rw [hred]
      apply lookup_none_of_not_mem_keys
      intro hk
      rcases List.mem_map.mp hk with ⟨⟨k2, v2⟩, hkv, hfst⟩
      have he2 : k2 = k := hfst
      rw [he2] at hkv
      exact hnd.1 (key_mem_of_pair_mem t k v2 (List.mem_filter.mp hkv).1)
    · have hk1 : k1 ≠ k := by
        intro he
        subst he
        exact hnd.1 (key_mem_of_pair_mem t k1 v h1)
      by_cases hph : p (k1, v1) = true
      · simp [List.filter_cons, hph, objLookup, hk1, ih hnd.2 h1]
      · simp only [Bool.not_eq_true] at hph
        simp [List.filter_cons, hph, ih hnd.2 h1]

theorem foldl_objSet_lookup_of_forall_ne (upd : List (String × JVal))
    (base : List (String × JVal)) (k : String) (h : ∀ kv ∈ upd, kv.1 ≠ k) :
    objLookup (upd.foldl (fun a kv => objSet a kv.1 kv.2) base) k = objLookup base k := by
  induction upd generalizing base with
  | nil => simp
  | cons hd t ih =>
    simp only [List.foldl_cons]
    rw [ih (objSet base hd.1 hd.2) (fun kv hkv => h kv (by simp [hkv]))]
    exact objSet_lookup_ne base hd.1 hd.2 k (h hd (by simp))

theorem foldl_objSet_lookup_of_lookup (upd : List (String × JVal))
    (base : List (String × JVal)) (k : String) (v : JVal)
    (hnd : (upd.map Prod.fst).Nodup) (h : objLookup upd k = some v) :
    objLookup (upd.foldl (fun a kv => objSet a kv.1 kv.2) base) k = some v := by
  induction upd generalizing base with
  | nil => simp [objLookup] at h
  | cons hd t ih =>
    obtain ⟨k0, v0⟩ := hd
    rw [List.map_cons, List.nodup_cons] at hnd
    by_cases hk : k0 = k
    · subst hk
      simp [objLookup] at h
      subst h
      simp only [List.foldl_cons]
      rw [foldl_objSet_lookup_of_forall_ne t (objSet base k0 v0) k0
        (fun kv hkv he => hnd.1 (by
          rcases kv with ⟨k2, v2⟩
          have he2 : k2 = k0 := he
          rw [he2] at hkv
          exact key_mem_of_pair_mem t k0 v2 hkv))]
      exact objSet_lookup_self base k0 v0
    · simp [objLookup, hk] at h
      simp only [List.foldl_cons]
      exact ih (objSet base k0 v0) hnd.2 h

/-! Facts about the coerced field mapping. -/

theorem updStep_none (acc : List (String × JVal)) (f : Field) (h : f.key = none) :
    updStep acc f = acc := by
  simp [updStep, h]

theorem updStep_empty (acc : List (String × JVal)) (f : Field) (h : f.key = some "") :
    updStep acc f = acc := by
  simp [updStep, h]

theorem updStep_some (acc : List (String × JVal)) (f : Field) (k : String)
    (h : f.key = some k) (hk : k ≠ "") : updStep acc f = objSet acc k (coerceField f) := by
  simp [updStep, h, hk]

theorem buildUpdatedObj_foldl_mem (fields : List Field) (acc : List (String × JVal))
    (kv : String × JVal) (h : kv ∈ fields.foldl updStep acc) :
    kv ∈ acc ∨ ∃ f ∈ fields, f.key = some kv.1 := by
  induction fields generalizing acc with
  | nil =>
    left
    simpa using h
  | cons f t ih =>
    simp only [List.foldl_cons] at h
    rcases hf : f.key with _ | k
    · rw [updStep_none acc f hf] at h
      rcases ih _ h with h1 | ⟨f2, hf2, hk2⟩
      · left
        exact h1
      · right
        exact ⟨f2, by simp [hf2], hk2⟩
    · by_cases hke : k = ""
      · subst hke
        rw [updStep_empty acc f hf] at h
        rcases ih _ h with h1 | ⟨f2, hf2, hk2⟩
        · left
          exact h1
        · right
          exact ⟨f2, by simp [hf2], hk2⟩
      · rw [updStep_some acc f k hf hke] at h
        rcases ih _ h with h1 | ⟨f2, hf2, hk2⟩
        · rcases objSet_mem acc k (coerceField f) kv h1 with h2 | h2
          · right
            exact ⟨f, by simp, by rw [hf, h2]⟩
          · left
            exact h2
        · right
          exact ⟨f2, by simp [hf2], hk2⟩

theorem buildUpdatedObj_mem_hasKey (fields : List Field) (kv : String × JVal)
    (h : kv ∈ buildUpdatedObj fields) : fieldsHasKey fields kv.1 = true := by
  rcases buildUpdatedObj_foldl_mem fields [] kv h with h1 | ⟨f, hf, hk⟩
  · simp at h1
  · rw [fieldsHasKey, List.any_eq_true]
    exact ⟨f, hf, by simp [hk]⟩

theorem buildUpdatedObj_foldl_nodup (fields : List Field) (acc : List (String × JVal))
    (h : (acc.map Prod.fst).Nodup) :
    ((fields.foldl updStep acc).map Prod.fst).Nodup := by
  induction fields generalizing acc with
  | nil => simpa using h
  | cons f t ih =>
    simp only [List.foldl_cons]
    rcases hf : f.key with _ | k
    · rw [updStep_none acc f hf]
      exact ih acc h
    · by_cases hke : k = ""
      · subst hke
        rw [updStep_empty acc f hf]
        exact ih acc h
      · rw [updStep_some acc f k hf hke]
        exact ih _ (objSet_keys_nodup acc k (coerceField f) h)

theorem buildUpdatedObj_keys_nodup (fields : List Field) :
    ((buildUpdatedObj fields).map Prod.fst).Nodup :=
  buildUpdatedObj_foldl_nodup fields [] (by simp)

/-! Walk and structural-path lemmas. -/

theorem memberGet_jsGetNN (v : JVal) (s : Seg) (c : JVal) (h : memberGet v s = some c) :
    jsGetNN v s = some c := by
  cases v with
  | obj es =>
    cases s with
    | key k => exact h
    | idx n => simp [memberGet] at h
  | arr xs =>
    cases s with
    | idx n => exact h
    | key k => simp [memberGet] at h
  | null => simp [memberGet] at h
  | bool b => simp [memberGet] at h
  | num n => simp [memberGet] at h
  | str t => simp [memberGet] at h

theorem memberGet_some_shape (v : JVal) (s : Seg) (c : JVal) (h : memberGet v s = some c) :
    (∃ es k, v = JVal.obj es ∧ s = Seg.key k ∧ objLookup es k = some c) ∨
    (∃ xs n, v = JVal.arr xs ∧ s = Seg.idx n ∧ xs.get? n = some c) := by
  cases v with
  | obj es =>
    cases s with
    | key k => exact Or.inl ⟨es, k, rfl, rfl, h⟩
    | idx n => simp [memberGet] at h
  | arr xs =>
    cases s with
    | idx n => exact Or.inr ⟨xs, n, rfl, rfl, h⟩
    | key k => simp [memberGet] at h
  | null => simp [memberGet] at h
  | bool b => simp [memberGet] at h
  | num n => simp [memberGet] at h
  | str t => simp [memberGet] at h

theorem getStruct_cons (root : JVal) (s : Seg) (rest : List Seg) :
    getStruct root (s :: rest) = (memberGet root s).bind (fun c => getStruct c rest) := rfl

theorem walkSegs_of_getStruct (root : JVal) (p : List Seg) (t : JVal)
    (h : getStruct root p = some t) : walkSegs (some root) p = Except.ok (some t) := by
  induction p generalizing root with
  | nil =>
    rw [getStruct] at h
    rw [Option.some.injEq] at h
    rw [h]
    simp [walkSegs]
  | cons s rest ih =>
    rw [getStruct_cons] at h
    rcases Option.bind_eq_some.mp h with ⟨c, hm, hrest⟩
    rcases memberGet_some_shape root s c hm with ⟨es, k, hv, hs, _⟩ | ⟨xs, n, hv, hs, _⟩
    · subst hv
      subst hs
      have hw : walkSegs (some (JVal.obj es)) (Seg.key k :: rest) =
          walkSegs (jsGetNN (JVal.obj es) (Seg.key k)) rest := rfl
      rw [hw, memberGet_jsGetNN _ _ _ hm]
      exact ih c hrest
    · subst hv
      subst hs
      have hw : walkSegs (some (JVal.arr xs)) (Seg.idx n :: rest) =
          walkSegs (jsGetNN (JVal.arr xs) (Seg.idx n)) rest := rfl
      rw [hw, memberGet_jsGetNN _ _ _ hm]
      exact ih c hrest

theorem getStruct_append (v : JVal) (a b : List Seg) :
    getStruct v (a ++ b) = (getStruct v a).bind (fun t => getStruct t b) := by
  induction a generalizing v with
  | nil => rfl
  | cons s rest ih =>
    rw [List.cons_append, getStruct_cons, getStruct_cons]
    rcases hm : memberGet v s with _ | c
    · simp
    · simp only [Option.some_bind]
      exact ih c

theorem setDeep_obj_cons (es : List (String × JVal)) (k : String) (rest : List Seg)
    (np c : JVal) (hl : objLookup es k = some c) :
    setDeep (JVal.obj es) (Seg.key k :: rest) np =
      JVal.obj (objSet es k (setDeep c rest np)) := by
  simp only [setDeep, segToKey, hl]

theorem setDeep_arr_cons (xs : List JVal) (n : Nat) (rest : List Seg)
    (np c : JVal) (hl : xs.get? n = some c) :
    setDeep (JVal.arr xs) (Seg.idx n :: rest) np =
      JVal.arr (xs.set n (setDeep c rest np)) := by
  simp only [setDeep, segToArrIdx, hl]

theorem getStruct_setDeep_self (root : JVal) (p : List Seg) (t np : JVal)
    (h : getStruct root p = some t) : getStruct (setDeep root p np) p = some np := by
  induction p generalizing root with
  | nil => rfl
  | cons s rest ih =>
    rw [getStruct_cons] at h
    rcases Option.bind_eq_some.mp h with ⟨c, hm, hrest⟩
    rcases memberGet_some_shape root s c hm with ⟨es, k, hv, hs, hl⟩ | ⟨xs, n, hv, hs, hl⟩
    · subst hv
      subst hs
      rw [setDeep_obj_cons es k rest np c hl, getStruct_cons]
      have hmg : memberGet (JVal.obj (objSet es k (setDeep c rest np))) (Seg.key k) =
          some (setDeep c rest np) := objSet_lookup_self es k (setDeep c rest np)
      rw [hmg, Option.some_bind]
      exact ih c hrest
    · subst hv
      subst hs
      obtain ⟨hlen, -⟩ := List.get?_eq_some.mp hl
      rw [setDeep_arr_cons xs n rest np c hl, getStruct_cons]
      have hmg : memberGet (JVal.arr (xs.set n (setDeep c rest np))) (Seg.idx n) =
          some (setDeep c rest np) := by
        have := List.get?_set_eq_of_lt (setDeep c rest np) (n := n) (l := xs) hlen
        exact this
      rw [hmg, Option.some_bind]
      exact ih c hrest

theorem getStruct_setDeep_frame (p : List Seg) (root : JVal) (q : List Seg) (t np : JVal)
    (h : getStruct root p = some t) (h1 : ¬ p <+: q) (h2 : ¬ q <+: p) :
    getStruct (setDeep root p np) q = getStruct root q := by
  induction p generalizing root q with
  | nil => exact absurd (List.nil_prefix) h1
  | cons s p2 ih =>
    cases q with
    | nil => exact absurd (List.nil_prefix) h2
    | cons t0 q2 =>
      rw [getStruct_cons] at h
      rcases Option.bind_eq_some.mp h with ⟨c, hm, hrest⟩
      by_cases hst : s = t0
      · subst hst
        have h1b : ¬ p2 <+: q2 := by
          intro hp
          exact h1 (List.cons_prefix_cons.mpr ⟨rfl, hp⟩)
        have h2b : ¬ q2 <+: p2 := by
          intro hp
          exact h2 (List.cons_prefix_cons.mpr ⟨rfl, hp⟩)
        rcases memberGet_some_shape root s c hm with ⟨es, k, hv, hs, hl⟩ | ⟨xs, n, hv, hs, hl⟩
        · subst hv
          subst hs
          rw [setDeep_obj_cons es k p2 np c hl, getStruct_cons, getStruct_cons]
          have hmg : memberGet (JVal.obj (objSet es k (setDeep c p2 np))) (Seg.key k) =
              some (setDeep c p2 np) := objSet_lookup_self es k (setDeep c p2 np)
          rw [hmg, hm, Option.some_bind, Option.some_bind]
          exact ih c q2 hrest h1b h2b
        · subst hv
          subst hs
          obtain ⟨hlen, -⟩ := List.get?_eq_some.mp hl
          rw [setDeep_arr_cons xs n p2 np c hl, getStruct_cons, getStruct_cons]
          have hmg : memberGet (JVal.arr (xs.set n (setDeep c p2 np))) (Seg.idx n) =
              some (setDeep c p2 np) := by
            have := List.get?_set_eq_of_lt (setDeep c p2 np) (n := n) (l := xs) hlen
            exact this
          rw [hmg, hm, Option.some_bind, Option.some_bind]
          exact ih c q2 hrest h1b h2b
      · rcases memberGet_some_shape root s c hm with ⟨es, k, hv, hs, hl⟩ | ⟨xs, n, hv, hs, hl⟩
        · subst hv
          subst hs
          rw [setDeep_obj_cons es k p2 np c hl, getStruct_cons, getStruct_cons]
          cases t0 with
          | key k2 =>
            have hk : k ≠ k2 := by
              intro he
              exact hst (by rw [he])
            have hmg : memberGet (JVal.obj (objSet es k (setDeep c p2 np))) (Seg.key k2) =
                memberGet (JVal.obj es) (Seg.key k2) :=
              objSet_lookup_ne es k (setDeep c p2 np) k2 hk
            rw [hmg]
          | idx m =>
            have hmg : memberGet (JVal.obj (objSet es k (setDeep c p2 np))) (Seg.idx m) = none := rfl
            have hmg2 : memberGet (JVal.obj es) (Seg.idx m) = none := rfl
            rw [hmg, hmg2]
        · subst hv
          subst hs
          rw [setDeep_arr_cons xs n p2 np c hl, getStruct_cons, getStruct_cons]
          cases t0 with
          | idx m =>
            have hnm : n ≠ m := by
              intro he
              exact hst (by rw [he])
            have hmg : memberGet (JVal.arr (xs.set n (setDeep c p2 np))) (Seg.idx m) =
                memberGet (JVal.arr xs) (Seg.idx m) :=
              List.get?_set_ne (setDeep c p2 np) xs hnm
            rw [hmg]
          | key k2 =>
            have hmg : memberGet (JVal.arr (xs.set n (setDeep c p2 np))) (Seg.key k2) = none := rfl
            have hmg2 : memberGet (JVal.arr xs) (Seg.key k2) = none := rfl
            rw [hmg, hmg2]

theorem memberGet_objSet_other (es : List (String × JVal)) (k : String) (x : JVal)
    (t0 : Seg) (h : Seg.key k ≠ t0) :
    memberGet (JVal.obj (objSet es k x)) t0 = memberGet (JVal.obj es) t0 := by
  cases t0 with
  | key k2 =>
    have hk : k ≠ k2 := by
      intro he
      exact h (by rw [he])
    exact objSet_lookup_ne es k x k2 hk
  | idx m => rfl

theorem memberGet_set_other (xs : List JVal) (n : Nat) (x : JVal)
    (t0 : Seg) (h : Seg.idx n ≠ t0) :
    memberGet (JVal.arr (xs.set n x)) t0 = memberGet (JVal.arr xs) t0 := by
  cases t0 with
  | idx m =>
    have hnm : n ≠ m := by
      intro he
      exact h (by rw [he])
    exact List.get?_set_ne x xs hnm
  | key k2 => rfl

theorem arrSetIdx_lt (xs : List JVal) (n : Nat) (v : JVal) (h : n < xs.length) :
    arrSetIdx xs n v = xs.set n v := by
  simp [arrSetIdx, h]

theorem arrSetIdx_get_self (xs : List JVal) (n : Nat) (v : JVal) :
    (arrSetIdx xs n v).get? n = some v := by
  by_cases h : n < xs.length
  · rw [arrSetIdx_lt xs n v h]
    exact List.get?_set_eq_of_lt v h
  · have hge : xs.length ≤ n := Nat.le_of_not_lt h
    rw [arrSetIdx, if_neg h, List.append_assoc, List.get?_append_right hge,
      List.get?_append_right (by simp)]
    simp

/-- Reduction of `applyEdit` on a path split at its final segment: walk the
intermediates, check for an undefined parent, assign, rebuild. -/
theorem applyEdit_concat (root : JVal) (pp : List Seg) (lst : Seg) (v : JVal) :
    applyEdit root (pp ++ [lst]) v =
      (match walkSegs (some root) pp with
      | Except.error e => Except.error e
      | Except.ok none => Except.error JSErr.invalidPath
      | Except.ok (some parent) =>
        match jsSet parent lst v with
        | Except.error e => Except.error e
        | Except.ok newParent => Except.ok (setDeep root pp newParent)) := by
  have h1 : (pp ++ [lst]).isEmpty = false := by
    cases pp <;> rfl
  rw [applyEdit, h1]
  rw [List.dropLast_concat, List.getLastD_concat]
  rfl

/-- C1 (amended): when the walk of the intermediate segments itself succeeds
but produces `undefined` (that is, exactly the parent location is undefined),
`applyEdit` fails with the InvalidPath error. (When an earlier intermediate is
already undefined, the walk instead throws a TypeError reading a property of
`undefined`; see the counterexample.) In particular
`applyEdit(doc, ["x","y"], 1)` on an object document lacking key `x` fails
with InvalidPath. -/
theorem applyEdit_parent_undefined_invalidPath (root : JVal) (pp : List Seg) (lst : Seg)
    (v : JVal) (h : walkSegs (some root) pp = Except.ok none) :
    applyEdit root (pp ++ [lst]) v = Except.error JSErr.invalidPath := by
  rw [applyEdit_concat, h]

/-- Witness for C1: the document `{"a":1}` lacks key `"x"`, and
`applyEdit` at path `["x","y"]` fails with InvalidPath. -/
theorem applyEdit_parent_undefined_invalidPath_witness :
    walkSegs (some (JVal.obj [("a", JVal.num (JSNum.fin (intJQ 1)))])) [Seg.key "x"] =
      Except.ok none ∧
    applyEdit (JVal.obj [("a", JVal.num (JSNum.fin (intJQ 1)))])
      ([Seg.key "x"] ++ [Seg.key "y"]) (JVal.num (JSNum.fin (intJQ 1))) =
      Except.error JSErr.invalidPath :=
  ⟨rfl, applyEdit_parent_undefined_invalidPath
    (JVal.obj [("a", JVal.num (JSNum.fin (intJQ 1)))]) [Seg.key "x"] (Seg.key "y")
    (JVal.num (JSNum.fin (intJQ 1))) rfl⟩

/-- Counterexample to C1 as stated: on the document `{}` with path
`["x","y","z"]` the intermediate `"x"` resolves to an undefined location, yet
`applyEdit` fails with a TypeError (reading a property of `undefined` while
walking), not with the InvalidPath error. -/
theorem applyEdit_deep_undefined_typeError_cex :
    applyEdit (JVal.obj []) [Seg.key "x", Seg.key "y", Seg.key "z"] JVal.null =
      Except.error JSErr.typeError ∧
    JSErr.typeError ≠ JSErr.invalidPath :=
  ⟨rfl, by decide⟩

/-- C7: for every well-formed document, `applyEdit` with an empty path
returns `newValue` as the entire new document, and `applyEdit` with a
non-empty path that resolves structurally replaces exactly the addressed
location: the path now holds `newValue`, and every location that neither
extends the edited path nor is a prefix of it (in particular every sibling
key or element, with all its nested contents) resolves to exactly what it
held before. Serialisation is modelled structurally (the claim is modulo
re-serialisation formatting). -/
theorem applyEdit_replace_exact (root : JVal) (path : List Seg) (v old : JVal) :
    applyEdit root [] v = Except.ok v ∧
    (path ≠ [] → getStruct root path = some old →
      ∃ res, applyEdit root path v = Except.ok res ∧
        getStruct res path = some v ∧
        ∀ q, ¬ path <+: q → ¬ q <+: path → getStruct res q = getStruct root q) := by
  constructor
  · rfl
  · intro hne hres
    obtain ⟨pp, lst, rfl⟩ : ∃ pp lst, path = pp ++ [lst] := by
      rcases List.eq_nil_or_concat path with h | ⟨pp, lst, h⟩
      · exact absurd h hne
      · exact ⟨pp, lst, by rw [h, List.concat_eq_append]⟩
    rw [getStruct_append] at hres
    rcases Option.bind_eq_some.mp hres with ⟨parent, hpp, hlast⟩
    rw [getStruct_cons] at hlast
    rcases Option.bind_eq_some.mp hlast with ⟨old2, hm, h0⟩
    have hwalk := walkSegs_of_getStruct root pp parent hpp
    rcases memberGet_some_shape parent lst old2 hm with ⟨es, k, hv, hs, hl⟩ | ⟨xs, n, hv, hs, hl⟩
    all_goals subst hv
    all_goals subst hs
    · refine ⟨setDeep root pp (JVal.obj (objSet es k v)), ?_, ?_, ?_⟩
      · rw [applyEdit_concat, hwalk]
        rfl
      · rw [getStruct_append, getStruct_setDeep_self root pp _ _ hpp, Option.some_bind,
          getStruct_cons]
        have hmg : memberGet (JVal.obj (objSet es k v)) (Seg.key k) = some v :=
          objSet_lookup_self es k v
        rw [hmg]
        rfl
      · intro q hq1 hq2
        by_cases hppq : pp <+: q
        · obtain ⟨r, rfl⟩ := hppq
          cases r with
          | nil =>
            rw [List.append_nil] at hq2
            exact absurd (List.prefix_append pp [Seg.key k]) hq2
          | cons t0 r2 =>
            by_cases ht0 : t0 = Seg.key k
            · subst ht0
              refine absurd ?_ hq1
              refine ⟨r2, ?_⟩
              simp
            · rw [getStruct_append, getStruct_setDeep_self root pp _ _ hpp,
                Option.some_bind, getStruct_cons, getStruct_append, hpp, Option.some_bind,
                getStruct_cons]
              have hmg : memberGet (JVal.obj (objSet es k v)) t0 =
                  memberGet (JVal.obj es) t0 :=
                memberGet_objSet_other es k v t0 (fun he => ht0 he.symm)
              rw [hmg]
        · have hqpp : ¬ q <+: pp := by
            intro hqp
            exact hq2 (hqp.trans (List.prefix_append pp [Seg.key k]))
          exact getStruct_setDeep_frame pp root q _ _ hpp hppq hqpp
    · obtain ⟨hlen, -⟩ := List.get?_eq_some.mp hl
      have hset : jsSet (JVal.arr xs) (Seg.idx n) v =
          Except.ok (JVal.arr (xs.set n v)) := by
        have : jsSet (JVal.arr xs) (Seg.idx n) v = Except.ok (JVal.arr (arrSetIdx xs n v)) := rfl
        rw [this, arrSetIdx_lt xs n v hlen]
      refine ⟨setDeep root pp (JVal.arr (xs.set n v)), ?_, ?_, ?_⟩
      · rw [applyEdit_concat, hwalk]
        show (match jsSet (JVal.arr xs) (Seg.idx n) v with
          | Except.error e => Except.error e
          | Except.ok newParent => Except.ok (setDeep root pp newParent)) =
          Except.ok (setDeep root pp (JVal.arr (xs.set n v)))
        rw [hset]
      · rw [getStruct_append, getStruct_setDeep_self root pp _ _ hpp, Option.some_bind,
          getStruct_cons]
        have hmg : memberGet (JVal.arr (xs.set n v)) (Seg.idx n) = some v :=
          List.get?_set_eq_of_lt v hlen
        rw [hmg]
        rfl
      · intro q hq1 hq2
        by_cases hppq : pp <+: q
        · obtain ⟨r, rfl⟩ := hppq
          cases r with
          | nil =>
            rw [List.append_nil] at hq2
            exact absurd (List.prefix_append pp [Seg.idx n]) hq2
          | cons t0 r2 =>
            by_cases ht0 : t0 = Seg.idx n
            · subst ht0
              refine absurd ?_ hq1
              refine ⟨r2, ?_⟩
              simp
            · rw [getStruct_append, getStruct_setDeep_self root pp _ _ hpp,
                Option.some_bind, getStruct_cons, getStruct_append, hpp, Option.some_bind,
                getStruct_cons]
              have hmg : memberGet (JVal.arr (xs.set n v)) t0 =
                  memberGet (JVal.arr xs) t0 :=
                memberGet_set_other xs n v t0 (fun he => ht0 he.symm)
              rw [hmg]
        · have hqpp : ¬ q <+: pp := by
            intro hqp
            exact hq2 (hqp.trans (List.prefix_append pp [Seg.idx n]))
          exact getStruct_setDeep_frame pp root q _ _ hpp hppq hqpp

/-- Shorthand for an integer JSON number value. -/
def jnum (k : Int) : JVal := JVal.num (JSNum.fin (intJQ k))

/-- The round-trip example document of the spec,
`{"a": {"b": 1, "c": [1, 2]}}`. -/
def docRT : JVal :=
  JVal.obj [("a", JVal.obj [("b", jnum 1), ("c", JVal.arr [jnum 1, jnum 2])])]

/-- Witness for C7: editing the root replaces the whole document, and on the
spec's round-trip example `applyEdit(doc, ["a","b"], 99)` yields exactly
`{"a": {"b": 99, "c": [1, 2]}}`, sibling `c` untouched. -/
theorem applyEdit_replace_exact_witness :
    applyEdit docRT [] (jnum 7) = Except.ok (jnum 7) ∧
    (∃ res, applyEdit docRT [Seg.key "a", Seg.key "b"] (jnum 99) = Except.ok res ∧
      getStruct res [Seg.key "a", Seg.key "b"] = some (jnum 99) ∧
      ∀ q, ¬ [Seg.key "a", Seg.key "b"] <+: q → ¬ q <+: [Seg.key "a", Seg.key "b"] →
        getStruct res q = getStruct docRT q) ∧
    applyEdit docRT [Seg.key "a", Seg.key "b"] (jnum 99) =
      Except.ok (JVal.obj
        [("a", JVal.obj [("b", jnum 99), ("c", JVal.arr [jnum 1, jnum 2])])]) :=
  ⟨(applyEdit_replace_exact docRT [Seg.key "a", Seg.key "b"] (jnum 7) (jnum 1)).1,
   (applyEdit_replace_exact docRT [Seg.key "a", Seg.key "b"] (jnum 99) (jnum 1)).2
     (by simp) rfl,
   rfl⟩

/-- C9 (amended): when every intermediate segment resolves structurally and
the parent of the final segment is a container matching the final segment's
kind (an object with a key segment, or an array with an index segment), an
`applyEdit` whose final segment does not exist in that parent succeeds and
inserts the new value at that location (for an array, padding any skipped
slots with null). A parent that resolves to a scalar makes the strict-mode
assignment throw a TypeError instead. -/
theorem applyEdit_missing_final_inserts (root : JVal) (pp : List Seg) (lst : Seg)
    (v parent : JVal) (hpp : getStruct root pp = some parent)
    (hmiss : memberGet parent lst = none)
    (hfit : (∃ es k, parent = JVal.obj es ∧ lst = Seg.key k) ∨
            (∃ xs n, parent = JVal.arr xs ∧ lst = Seg.idx n)) :
    ∃ res, applyEdit root (pp ++ [lst]) v = Except.ok res ∧
      getStruct res (pp ++ [lst]) = some v := by
  have hwalk := walkSegs_of_getStruct root pp parent hpp
  rcases hfit with ⟨es, k, hv, hs⟩ | ⟨xs, n, hv, hs⟩
  · subst hv
    subst hs
    refine ⟨setDeep root pp (JVal.obj (objSet es k v)), ?_, ?_⟩
    · rw [applyEdit_concat, hwalk]
      rfl
    · rw [getStruct_append, getStruct_setDeep_self root pp _ _ hpp, Option.some_bind,
        getStruct_cons]
      have hmg : memberGet (JVal.obj (objSet es k v)) (Seg.key k) = some v :=
        objSet_lookup_self es k v
      rw [hmg]
      rfl
  · subst hv
    subst hs
    refine ⟨setDeep root pp (JVal.arr (arrSetIdx xs n v)), ?_, ?_⟩
    · rw [applyEdit_concat, hwalk]
      rfl
    · rw [getStruct_append, getStruct_setDeep_self root pp _ _ hpp, Option.some_bind,
        getStruct_cons]
      have hmg : memberGet (JVal.arr (arrSetIdx xs n v)) (Seg.idx n) = some v :=
        arrSetIdx_get_self xs n v
      rw [hmg]
      rfl

/-- Witness for C9: on `{"a": {}}` the final key `"b"` does not exist, yet
the edit succeeds and inserts it; likewise an out-of-range index on
`{"a": [1]}` succeeds, padding with null. -/
theorem applyEdit_missing_final_inserts_witness :
    (∃ res, applyEdit (JVal.obj [("a", JVal.obj [])]) ([Seg.key "a"] ++ [Seg.key "b"])
        (jnum 1) = Except.ok res ∧
      getStruct res ([Seg.key "a"] ++ [Seg.key "b"]) = some (jnum 1)) ∧
    (∃ res, applyEdit (JVal.obj [("a", JVal.arr [jnum 1])]) ([Seg.key "a"] ++ [Seg.idx 3])
        (jnum 9) = Except.ok res ∧
      getStruct res ([Seg.key "a"] ++ [Seg.idx 3]) = some (jnum 9)) ∧
    applyEdit (JVal.obj [("a", JVal.arr [jnum 1])]) [Seg.key "a", Seg.idx 3] (jnum 9) =
      Except.ok (JVal.obj [("a", JVal.arr [jnum 1, JVal.null, JVal.null, jnum 9])]) :=
  ⟨applyEdit_missing_final_inserts (JVal.obj [("a", JVal.obj [])]) [Seg.key "a"]
      (Seg.key "b") (jnum 1) (JVal.obj []) rfl rfl (Or.inl ⟨[], "b", rfl, rfl⟩),
   applyEdit_missing_final_inserts (JVal.obj [("a", JVal.arr [jnum 1])]) [Seg.key "a"]
      (Seg.idx 3) (jnum 9) (JVal.arr [jnum 1]) rfl rfl (Or.inr ⟨[jnum 1], 3, rfl, rfl⟩),
   rfl⟩

/-- Counterexample to C9 as stated: on `{"a": 5}` with path `["a","b"]` every
intermediate segment resolves (to the scalar 5, which is not undefined) and
the final segment does not exist, yet `applyEdit` does not succeed: the
strict-mode assignment to a property of a number throws a TypeError. -/
theorem applyEdit_scalar_parent_typeError_cex :
    applyEdit (JVal.obj [("a", jnum 5)]) [Seg.key "a", Seg.key "b"] (jnum 1) =
      Except.error JSErr.typeError ∧
    ∀ res : JVal, applyEdit (JVal.obj [("a", jnum 5)]) [Seg.key "a", Seg.key "b"] (jnum 1) ≠
      Except.ok res := by
  constructor
  · rfl
  · intro res h
    rw [show applyEdit (JVal.obj [("a", jnum 5)]) [Seg.key "a", Seg.key "b"] (jnum 1) =
        Except.error JSErr.typeError from rfl] at h
    exact Except.noConfusion h

/-- C2 (amended): when the value reached by walking the full path is not an
object in the `typeof` sense — undefined, null, or a scalar — the whole
location is replaced through `applyEdit` with the object built from the
coerced fields. An array target, whose `typeof` is also "object", does NOT
take this branch: it goes through the key-merge pass (see the
counterexample). -/
theorem syncFields_nonobject_replaces (root : JVal) (path : List Seg) (fields : List Field)
    (t : Option JVal) (hw : walkSegs (some root) path = Except.ok t)
    (ht : t = none ∨ t = some JVal.null ∨ (∃ b, t = some (JVal.bool b)) ∨
      (∃ n2, t = some (JVal.num n2)) ∨ (∃ s2, t = some (JVal.str s2))) :
    syncFields root path fields = applyEdit root path (JVal.obj (buildUpdatedObj fields)) := by
  rcases ht with h | h | ⟨b, h⟩ | ⟨n2, h⟩ | ⟨s2, h⟩
  all_goals subst h
  all_goals simp only [syncFields, hw]

/-- Witness for C2 (amended): on `{"a": 5}` the scalar target at `["a"]` is
replaced wholesale by the coerced mapping, yielding `{"a": {"b": 99}}`. -/
theorem syncFields_nonobject_replaces_witness :
    syncFields (JVal.obj [("a", jnum 5)]) [Seg.key "a"] [⟨some "b", "99", "number"⟩] =
      applyEdit (JVal.obj [("a", jnum 5)]) [Seg.key "a"]
        (JVal.obj (buildUpdatedObj [⟨some "b", "99", "number"⟩])) ∧
    syncFields (JVal.obj [("a", jnum 5)]) [Seg.key "a"] [⟨some "b", "99", "number"⟩] =
      Except.ok (JVal.obj [("a", JVal.obj [("b", jnum 99)])]) :=
  ⟨syncFields_nonobject_replaces (JVal.obj [("a", jnum 5)]) [Seg.key "a"]
      [⟨some "b", "99", "number"⟩] (some (jnum 5)) rfl
      (Or.inr (Or.inr (Or.inr (Or.inl ⟨JSNum.fin (intJQ 5), rfl⟩)))),
   rfl⟩

/-- The array example document `{"a": [1, 2]}` and the single field
`{key: "b", value: "99", type: "number"}`. -/
def docC2 : JVal := JVal.obj [("a", JVal.arr [jnum 1, jnum 2])]

/-- The field `{key: "b", value: "99", type: "number"}`. -/
def fieldB : Field := ⟨some "b", "99", "number"⟩

/-- Counterexample to C2 as stated: with document `{"a": [1, 2]}`, path
`["a"]` and the single field `b = 99`, the array target is NOT replaced via
`applyEdit` with the coerced mapping (which would give `{"a": {"b": 99}}`):
since `typeof [] === "object"`, the code runs the merge pass over the array,
deleting both primitive elements (holes serialise as null) and attaching
`b` as an expando property invisible to serialisation, yielding
`{"a": [null, null]}`. -/
theorem syncFields_array_target_merge_cex :
    syncFields docC2 [Seg.key "a"] [fieldB] =
      Except.ok (JVal.obj [("a", JVal.arr [JVal.null, JVal.null])]) ∧
    applyEdit docC2 [Seg.key "a"] (JVal.obj (buildUpdatedObj [fieldB])) =
      Except.ok (JVal.obj [("a", JVal.obj [("b", jnum 99)])]) ∧
    getStruct (JVal.obj [("a", JVal.arr [JVal.null, JVal.null])]) [Seg.key "a"] =
      some (JVal.arr [JVal.null, JVal.null]) ∧
    getStruct (JVal.obj [("a", JVal.obj [("b", jnum 99)])]) [Seg.key "a"] =
      some (JVal.obj [("b", jnum 99)]) ∧
    JVal.arr [JVal.null, JVal.null] ≠ JVal.obj [("b", jnum 99)] :=
  ⟨rfl, rfl, rfl, rfl, fun h => JVal.noConfusion h⟩

/-- Reduction of `syncFields` on an object target: the merged entries are
written back at the path. -/
theorem syncFields_obj_eq (root : JVal) (path : List Seg) (fields : List Field)
    (es : List (String × JVal)) (h : getStruct root path = some (JVal.obj es)) :
    syncFields root path fields =
      Except.ok (setDeep root path (JVal.obj (mergeObjTarget es fields))) := by
  have hw := walkSegs_of_getStruct root path _ h
  simp only [syncFields, hw]

/-- C6: on an object target, every own key whose value is primitive (null or
not an object) that appears in no incoming field is deleted — it no longer
resolves in the result — and every key of the coerced field mapping is
set/overwritten to its coerced value. -/
theorem syncFields_object_merge (root : JVal) (path : List Seg) (fields : List Field)
    (es : List (String × JVal))
    (hres : getStruct root path = some (JVal.obj es))
    (hnd : (es.map Prod.fst).Nodup) :
    ∃ res, syncFields root path fields = Except.ok res ∧
      (∀ k v, (k, v) ∈ es → isPrim v = true → fieldsHasKey fields k = false →
        getStruct res (path ++ [Seg.key k]) = none) ∧
      (∀ k v, objLookup (buildUpdatedObj fields) k = some v →
        getStruct res (path ++ [Seg.key k]) = some v) := by
  refine ⟨setDeep root path (JVal.obj (mergeObjTarget es fields)),
    syncFields_obj_eq root path fields es hres, ?_, ?_⟩
  · intro k v hmem hprim hnf
    rw [getStruct_append, getStruct_setDeep_self root path _ _ hres, Option.some_bind,
      getStruct_cons]
    have hne : ∀ kv ∈ buildUpdatedObj fields, kv.1 ≠ k := by
      intro kv hkv he
      have hk := buildUpdatedObj_mem_hasKey fields kv hkv
      rw [he] at hk
      rw [hk] at hnf
      exact Bool.noConfusion hnf
    have hlk : objLookup (mergeObjTarget es fields) k = none := by
      rw [mergeObjTarget, foldl_objSet_lookup_of_forall_ne _ _ k hne]
      exact lookup_filter_of_mem_false es _ k v hnd hmem (by simp [hprim, hnf])
    have hmg : memberGet (JVal.obj (mergeObjTarget es fields)) (Seg.key k) = none := hlk
    rw [hmg]
    rfl
  · intro k v hlk
    rw [getStruct_append, getStruct_setDeep_self root path _ _ hres, Option.some_bind,
      getStruct_cons]
    have h2 : objLookup (mergeObjTarget es fields) k = some v := by
      rw [mergeObjTarget]
      exact foldl_objSet_lookup_of_lookup _ _ k v (buildUpdatedObj_keys_nodup fields) hlk
    have hmg : memberGet (JVal.obj (mergeObjTarget es fields)) (Seg.key k) = some v := h2
    rw [hmg]
    rfl

/-- The merge example document `{"a": {"b": 1, "c": "keep", "d": {"e": 1}}}`. -/
def docC6 : JVal := JVal.obj [("a", JVal.obj
  [("b", jnum 1), ("c", JVal.str "keep"), ("d", JVal.obj [("e", jnum 1)])])]

/-- Witness for C6: the spec's merge example. With only the field `b = 99`,
primitive key `c` is deleted, nested key `d` survives, and the whole result
is exactly `{"a": {"b": 99, "d": {"e": 1}}}`. -/
theorem syncFields_object_merge_witness :
    (∃ res, syncFields docC6 [Seg.key "a"] [fieldB] = Except.ok res ∧
      (∀ k v, (k, v) ∈ [("b", jnum 1), ("c", JVal.str "keep"),
          ("d", JVal.obj [("e", jnum 1)])] →
        isPrim v = true → fieldsHasKey [fieldB] k = false →
        getStruct res ([Seg.key "a"] ++ [Seg.key k]) = none) ∧
      (∀ k v, objLookup (buildUpdatedObj [fieldB]) k = some v →
        getStruct res ([Seg.key "a"] ++ [Seg.key k]) = some v)) ∧
    syncFields docC6 [Seg.key "a"] [fieldB] =
      Except.ok (JVal.obj [("a", JVal.obj [("b", jnum 99),
        ("d", JVal.obj [("e", jnum 1)])])]) :=
  ⟨syncFields_object_merge docC6 [Seg.key "a"] [fieldB]
      [("b", jnum 1), ("c", JVal.str "keep"), ("d", JVal.obj [("e", jnum 1)])]
      rfl (by simp),
   rfl⟩

/-- C3 (amended): on an object target, every own key whose value is an object
or an array and that appears in no incoming field keeps exactly its previous
value: the deletion pass skips container values, and the set pass only writes
keys of the coerced mapping. (A field with the same key DOES overwrite the
nested value in the set pass — see the counterexample — so immunity holds
only for keys matched by no field.) -/
theorem syncFields_container_keys_preserved (root : JVal) (path : List Seg)
    (fields : List Field) (es : List (String × JVal)) (k : String) (v : JVal)
    (hres : getStruct root path = some (JVal.obj es))
    (hnd : (es.map Prod.fst).Nodup)
    (hmem : (k, v) ∈ es) (hcont : isPrim v = false)
    (hnf : fieldsHasKey fields k = false) :
    ∃ res, syncFields root path fields = Except.ok res ∧
      getStruct res (path ++ [Seg.key k]) = some v := by
  refine ⟨setDeep root path (JVal.obj (mergeObjTarget es fields)),
    syncFields_obj_eq root path fields es hres, ?_⟩
  rw [getStruct_append, getStruct_setDeep_self root path _ _ hres, Option.some_bind,
    getStruct_cons]
  have hne : ∀ kv ∈ buildUpdatedObj fields, kv.1 ≠ k := by
    intro kv hkv he
    have hk := buildUpdatedObj_mem_hasKey fields kv hkv
    rw [he] at hk
    rw [hk] at hnf
    exact Bool.noConfusion hnf
  have hlk : objLookup (mergeObjTarget es fields) k = some v := by
    rw [mergeObjTarget, foldl_objSet_lookup_of_forall_ne _ _ k hne]
    exact lookup_filter_of_mem_true es _ k v hnd hmem (by simp [hcont])
  have hmg : memberGet (JVal.obj (mergeObjTarget es fields)) (Seg.key k) = some v := hlk
  rw [hmg]
  rfl

/-- The nesting example document `{"a": {"d": {"e": 1}}}` and the field
`{key: "d", value: "9", type: "number"}`. -/
def docC3 : JVal := JVal.obj [("a", JVal.obj [("d", JVal.obj [("e", jnum 1)])])]

/-- The field `{key: "d", value: "9", type: "number"}`. -/
def fieldD : Field := ⟨some "d", "9", "number"⟩

/-- Witness for C3 (amended): on `{"a": {"b": 1, "d": {"e": 1}}}` with only
the field `b = 99`, the nested container `d` keeps exactly `{"e": 1}`. -/
theorem syncFields_container_keys_preserved_witness :
    ∃ res, syncFields (JVal.obj [("a", JVal.obj [("b", jnum 1),
        ("d", JVal.obj [("e", jnum 1)])])]) [Seg.key "a"] [fieldB] = Except.ok res ∧
      getStruct res ([Seg.key "a"] ++ [Seg.key "d"]) = some (JVal.obj [("e", jnum 1)]) :=
  syncFields_container_keys_preserved
    (JVal.obj [("a", JVal.obj [("b", jnum 1), ("d", JVal.obj [("e", jnum 1)])])])
    [Seg.key "a"] [fieldB] [("b", jnum 1), ("d", JVal.obj [("e", jnum 1)])] "d"
    (JVal.obj [("e", jnum 1)]) rfl (by simp) (by simp) rfl rfl

/-- Counterexample to C3 as stated: on `{"a": {"d": {"e": 1}}}` a field with
key `d` (value "9", type number) overwrites the nested object in the set
pass: the result is `{"a": {"d": 9}}`, so key `d` did not keep its previous
value `{"e": 1}` even though its existing value was an object. -/
theorem syncFields_nested_overwritten_cex :
    syncFields docC3 [Seg.key "a"] [fieldD] =
      Except.ok (JVal.obj [("a", JVal.obj [("d", jnum 9)])]) ∧
    getStruct (JVal.obj [("a", JVal.obj [("d", jnum 9)])]) [Seg.key "a", Seg.key "d"] =
      some (jnum 9) ∧
    some (jnum 9) ≠ some (JVal.obj [("e", jnum 1)]) :=
  ⟨rfl, rfl, fun h => JVal.noConfusion (Option.some.inj h)⟩

/-- C4: `normalizeNodeData` is a total pure function of the row list: every
input lands in exactly one of the three specified branches and produces a
string — the empty-object literal, the standalone serialisation of a bare
scalar (whose serialisation failure channel is explicit in `jsonStringifyE`
and degrades to the value's template text, a case that cannot fire on parsed
JSON values), or the 2-space pretty print of the filtered key/value object.
In particular it never throws to the caller. -/
theorem normalizeNodeData_total_cases (rows : List Row) :
    (rows = [] ∧ normalizeNodeData rows = obrace ++ cbrace) ∨
    (∃ r, rows = [r] ∧ keyTruthy r.key = false ∧
      normalizeNodeData rows = stringifyCompact r.value) ∨
    normalizeNodeData rows = stringifyPretty 0 (JVal.obj (buildDisplayObj rows)) := by
  match rows with
  | [] => exact Or.inl ⟨rfl, rfl⟩
  | [r] =>
    by_cases hk : keyTruthy r.key = true
    · refine Or.inr (Or.inr ?_)
      simp [normalizeNodeData, hk]
    · simp only [Bool.not_eq_true] at hk
      refine Or.inr (Or.inl ⟨r, rfl, hk, ?_⟩)
      simp [normalizeNodeData, hk, jsonStringifyE]
  | r1 :: r2 :: t =>
    refine Or.inr (Or.inr ?_)
    simp [normalizeNodeData]

/-- C5: the save path's field coercion is total (a failed coercion never
fails the save) and maps each field's text by its recorded type: `number`
parses via `Number()` and keeps the raw text when the parse is NaN;
`boolean` matches "true"/"false" case-insensitively and keeps the raw text
otherwise; `null` yields null regardless of the text; any other type keeps
the text itself. -/
theorem coerceField_spec (f : Field) (q : JQ) :
    (f.type = "number" → jsToNumber f.value = JSNum.nan → coerceField f = JVal.str f.value) ∧
    (f.type = "number" → jsToNumber f.value = JSNum.fin q →
      coerceField f = JVal.num (JSNum.fin q)) ∧
    (f.type = "boolean" → asciiToLower f.value = "true" → coerceField f = JVal.bool true) ∧
    (f.type = "boolean" → asciiToLower f.value = "false" → coerceField f = JVal.bool false) ∧
    (f.type = "boolean" → asciiToLower f.value ≠ "true" → asciiToLower f.value ≠ "false" →
      coerceField f = JVal.str f.value) ∧
    (f.type = "null" → coerceField f = JVal.null) ∧
    (f.type ≠ "number" → f.type ≠ "boolean" → f.type ≠ "null" →
      coerceField f = JVal.str f.value) := by
  refine ⟨?_, ?_, ?_, ?_, ?_, ?_, ?_⟩
  · intro h1 h2
    simp [coerceField, h1, h2]
  · intro h1 h2
    simp [coerceField, h1, h2]
  · intro h1 h2
    simp [coerceField, h1, h2]
  · intro h1 h2
    simp [coerceField, h1, h2]
  · intro h1 h2 h3
    simp [coerceField, h1, h2, h3]
  · intro h1
    simp [coerceField, h1]
  · intro h1 h2 h3
    simp [coerceField, h1, h2, h3]

/-- Witness for C5: "abc" as a number keeps the string "abc" without
throwing, "99" parses to 99, "TRUE" as a boolean yields true, "zzz" as a
boolean keeps the string, any text as null yields null, and a string-typed
field keeps its text. -/
theorem coerceField_spec_witness :
    coerceField ⟨some "k", "abc", "number"⟩ = JVal.str "abc" ∧
    coerceField ⟨some "k", "99", "number"⟩ = jnum 99 ∧
    coerceField ⟨some "k", "TRUE", "boolean"⟩ = JVal.bool true ∧
    coerceField ⟨some "k", "zzz", "boolean"⟩ = JVal.str "zzz" ∧
    coerceField ⟨some "k", "whatever", "null"⟩ = JVal.null ∧
    coerceField ⟨some "k", "txt", "string"⟩ = JVal.str "txt" :=
  ⟨(coerceField_spec ⟨some "k", "abc", "number"⟩ (intJQ 0)).1 rfl rfl,
   (coerceField_spec ⟨some "k", "99", "number"⟩ (intJQ 99)).2.1 rfl rfl,
   (coerceField_spec ⟨some "k", "TRUE", "boolean"⟩ (intJQ 0)).2.2.1 rfl rfl,
   (coerceField_spec ⟨some "k", "zzz", "boolean"⟩ (intJQ 0)).2.2.2.2.1 rfl
     (by decide) (by decide),
   (coerceField_spec ⟨some "k", "whatever", "null"⟩ (intJQ 0)).2.2.2.2.2.1 rfl,
   (coerceField_spec ⟨some "k", "txt", "string"⟩ (intJQ 0)).2.2.2.2.2.2
     (by decide) (by decide) (by decide)⟩

theorem dispStep_lookup_empty (acc : List (String × JVal)) (r : Row) :
    objLookup (dispStep acc r) "" = objLookup acc "" := by
  rw [dispStep]
  by_cases ht : (r.type != "array" && r.type != "object") = true
  · rw [if_pos ht]
    rcases hk : r.key with _ | k
    · rfl
    · by_cases hke : k = ""
      · subst hke
        rfl
      · show objLookup (if (k != "") = true then objSet acc k r.value else acc) "" =
          objLookup acc ""
        have hne : (k != "") = true := by simpa using hke
        rw [if_pos hne]
        exact objSet_lookup_ne acc k r.value "" hke
  · rw [if_neg ht]

theorem buildDisplayObj_foldl_lookup_empty (rows : List Row) (acc : List (String × JVal)) :
    objLookup (rows.foldl dispStep acc) "" = objLookup acc "" := by
  induction rows generalizing acc with
  | nil => rfl
  | cons r t ih =>
    rw [List.foldl_cons, ih, dispStep_lookup_empty]

/-- C8 (amended): an empty-string key behaves like an absent key on the read
side and in the coerced mapping — normalize renders a single row whose key is
"" as a bare scalar, the built display object never contains key "", and a
field with key "" contributes nothing to the coerced mapping. However, in the
save path such a field is NOT fully inert: the deletion pass checks the raw
field list, so it still shields an existing empty-string key of the target
from deletion (see the counterexample). -/
theorem emptyKey_field_behavior (r : Row) (rows : List Row) (f : Field)
    (fields : List Field) (hr : r.key = some "") (hf : f.key = some "") :
    normalizeNodeData [r] = stringifyCompact r.value ∧
    objLookup (buildDisplayObj rows) "" = none ∧
    buildUpdatedObj (f :: fields) = buildUpdatedObj fields := by
  refine ⟨?_, ?_, ?_⟩
  · simp [normalizeNodeData, keyTruthy, hr, jsonStringifyE]
  · rw [buildDisplayObj, buildDisplayObj_foldl_lookup_empty]
    rfl
  · rw [buildUpdatedObj, List.foldl_cons, updStep_empty [] f hf]
    rfl

/-- Witness for C8 (amended): the row `{key: "", value: 42}` renders as the
bare scalar "42", and the field `{key: "", ...}` adds nothing to the coerced
mapping. -/
theorem emptyKey_field_behavior_witness :
    normalizeNodeData [⟨some "", jnum 42, "number"⟩] =
      stringifyCompact (jnum 42) ∧
    objLookup (buildDisplayObj [⟨some "", jnum 42, "number"⟩]) "" = none ∧
    buildUpdatedObj [⟨some "", "x", "string"⟩] = buildUpdatedObj [] ∧
    normalizeNodeData [⟨some "", jnum 42, "number"⟩] = "42" := by
  have h := emptyKey_field_behavior ⟨some "", jnum 42, "number"⟩
    [⟨some "", jnum 42, "number"⟩] ⟨some "", "x", "string"⟩ [] rfl rfl
  exact ⟨h.1, h.2.1, h.2.2, rfl⟩

/-- The document `{"a": {"": 5}}` whose target owns an empty-string key. -/
def docC8 : JVal := JVal.obj [("a", JVal.obj [("", jnum 5)])]

/-- Counterexample to C8 as stated: a field with key "" does contribute to
the save: on `{"a": {"": 5}}` saving with that single field keeps the ""
key (the deletion pass sees a field whose key matches), while saving with no
fields deletes it — so the field is not skipped everywhere. -/
theorem emptyKey_field_shields_deletion_cex :
    syncFields docC8 [Seg.key "a"] [⟨some "", "x", "string"⟩] = Except.ok docC8 ∧
    syncFields docC8 [Seg.key "a"] [] = Except.ok (JVal.obj [("a", JVal.obj [])]) ∧
    getStruct docC8 [Seg.key "a", Seg.key ""] = some (jnum 5) ∧
    getStruct (JVal.obj [("a", JVal.obj [])]) [Seg.key "a", Seg.key ""] = none ∧
    some (jnum 5) ≠ (none : Option JVal) :=
  ⟨rfl, rfl, rfl, rfl, fun h => Option.noConfusion h⟩

theorem trimJsWs_all_ws (cs : List Char) (h : cs.all isJsWs = true) : trimJsWs cs = [] := by
  have h1 : cs.dropWhile isJsWs = [] := by
    induction cs with
    | nil => rfl
    | cons c t ih =>
      rw [List.all_cons, Bool.and_eq_true] at h
      rw [List.dropWhile_cons, if_pos h.1, ih h.2]
  rw [trimJsWs, h1]
  rfl

/-- C10: a number-typed field whose text is empty or only JavaScript
whitespace coerces to the number 0, not to the raw-text fallback:
`Number()` of such text is 0, and the fallback fires only when the parse is
NaN. -/
theorem coerceField_number_whitespace_zero (f : Field) (ht : f.type = "number")
    (hw : f.value.toList.all isJsWs = true) :
    coerceField f = JVal.num (JSNum.fin (intJQ 0)) := by
  have h0 : jsToNumber f.value = JSNum.fin (intJQ 0) := by
    rw [jsToNumber, trimJsWs_all_ws _ hw]
    rfl
  simp [coerceField, ht, h0]

/-- Witness for C10: the empty text and a blank/tab/newline text of type
number both coerce to 0. -/
theorem coerceField_number_whitespace_zero_witness :
    coerceField ⟨some "k", "", "number"⟩ = JVal.num (JSNum.fin (intJQ 0)) ∧
    coerceField ⟨some "k", " \t\n ", "number"⟩ = JVal.num (JSNum.fin (intJQ 0)) :=
  ⟨coerceField_number_whitespace_zero ⟨some "k", "", "number"⟩ rfl (by decide),
   coerceField_number_whitespace_zero ⟨some "k", " \t\n ", "number"⟩ rfl (by decide)⟩

end NodeModal
